import Mathlib

/-!
Verification of the UltraWealth platform trust core against its specification.

This file is a shallow embedding, in Lean 4, of the tenancy, governance,
event-store, evidence and replay subsystems of the platform
(`src/platform/tenancy`, `src/platform/evidence`, governance adapter and
enforcement hooks).  TypeScript `Map`s become association lists, JS objects
become structures, `Promise`-returning methods become pure functions (the
method bodies contain no internal suspension points, so each call is an
atomic state transition), the ambient `AsyncLocalStorage` tenant context
becomes an explicit `TenantContext` argument, and the wall clock
(`new Date()` / `Date.now()`) and `randomUUID()` become explicit parameters.
SHA-256 is modelled as an idealized collision-free digest: an injective
constructor applied to exactly the data the source hashes.
-/

namespace UltraWealth

/-! ## Association-list model of the TypeScript `Map` -/

/-- Lookup in an association list, mirroring `Map.get`. -/
def alLookup {α : Type} : List (String × α) → String → Option α
  | [], _ => none
  | (k, v) :: rest, key => if k = key then some v else alLookup rest key

/-- Update in an association list, mirroring `Map.set`: replaces the first
binding of the key, or appends a new binding. -/
def alInsert {α : Type} : List (String × α) → String → α → List (String × α)
  | [], key, v => [(key, v)]
  | (k, w) :: rest, key, v =>
      if k = key then (k, v) :: rest else (k, w) :: alInsert rest key v

/-! ## String helpers

The source builds composite map keys by string concatenation
(`events:${partitionKey}`, `${partitionKey}:${aggregateType}:${aggregateId}`).
The lemmas below isolate exactly when such keys are injective. -/

/-- A string contains no `':'` character. -/
def colonFree (s : String) : Prop := ':' ∉ s.data

instance (s : String) : Decidable (colonFree s) := by
  unfold colonFree; infer_instance

end UltraWealth

namespace UltraWealth

/-! ## Tenant registry (`src/platform/tenancy/tenant-registry.ts`) -/

inductive TenantProfile where
  | fo
  | retail
  | advisor
deriving DecidableEq

inductive TenantStatus where
  | provisioning
  | onboarding
  | active
  | suspended
  | offboarding
  | terminated
deriving DecidableEq

structure TenantConfig where
  id : String
  name : String
  profile : TenantProfile
  status : TenantStatus
  encryptionKeyId : String
  partitionKey : String
  createdAt : Nat
  updatedAt : Nat
deriving DecidableEq

/-- Registry state: the `tenants` map and the partition-key index. -/
structure RegistryState where
  tenants : List (String × TenantConfig)
  tenantsByPartition : List (String × String)
deriving DecidableEq

/-- The fixed status-transition table of
`TenantRegistryImpl.validateStatusTransition`. -/
def validTransitions : TenantStatus → List TenantStatus
  | .provisioning => [.onboarding, .terminated]
  | .onboarding => [.active, .terminated]
  | .active => [.suspended, .offboarding]
  | .suspended => [.active, .offboarding]
  | .offboarding => [.terminated]
  | .terminated => []

def statusName : TenantStatus → String
  | .provisioning => "provisioning"
  | .onboarding => "onboarding"
  | .active => "active"
  | .suspended => "suspended"
  | .offboarding => "offboarding"
  | .terminated => "terminated"

/-- `TenantRegistryImpl.updateStatus`: looks the tenant up, validates the
transition against the fixed table (throwing otherwise, which leaves the
registry untouched), then sets `status` and `updatedAt`. -/
def updateStatus (st : RegistryState) (tenantId : String) (status : TenantStatus)
    (now : Nat) : Except String RegistryState :=
  match alLookup st.tenants tenantId with
  | none => .error ("Tenant " ++ tenantId ++ " not found")
  | some tenant =>
      if (validTransitions tenant.status).contains status then
        .ok { st with
          tenants := alInsert st.tenants tenantId
            { tenant with status := status, updatedAt := now } }
      else
        .error ("Invalid status transition: " ++ statusName tenant.status
          ++ " -> " ++ statusName status)

/-! ## Tenant context (`tenant-context.ts`, `src/unnamed/part_002`) -/

structure TenantContext where
  tenant : TenantConfig
  correlationId : String
  createdAt : Nat
  userId : Option String
  roles : List String
deriving DecidableEq

structure TenantContextOptions where
  tenantId : String
  correlationId : String
  userId : Option String
  roles : Option (List String)
deriving DecidableEq

inductive TenantContextErrorCode where
  | NO_TENANT_CONTEXT
  | TENANT_NOT_FOUND
  | TENANT_NOT_ACTIVE
  | PROFILE_MISMATCH
  | ROLE_REQUIRED
  | CROSS_TENANT_ACCESS
deriving DecidableEq

structure TenantContextError where
  code : TenantContextErrorCode
  message : String
deriving DecidableEq

/-- The context `withTenantContext` freezes and installs for `fn`. -/
def mkTenantContext (tenant : TenantConfig) (options : TenantContextOptions)
    (now : Nat) : TenantContext :=
  { tenant := tenant
    correlationId := options.correlationId
    createdAt := now
    userId := options.userId
    roles := options.roles.getD [] }

/-- `withTenantContext(options, fn)`: resolves the tenant, rejects a missing
tenant (`TENANT_NOT_FOUND`) or a non-`active` one (`TENANT_NOT_ACTIVE`),
otherwise runs `fn` with the frozen context installed.  The ambient
`AsyncLocalStorage` is modelled by passing the installed context to `fn`
directly: inside the dynamic extent of `fn`, `getTenantContext()` returns
exactly this context. -/
def withTenantContext {α : Type} (st : RegistryState) (options : TenantContextOptions)
    (now : Nat) (fn : TenantContext → α) : Except TenantContextError α :=
  match alLookup st.tenants options.tenantId with
  | none =>
      .error ⟨.TENANT_NOT_FOUND, "Tenant " ++ options.tenantId ++ " does not exist"⟩
  | some tenant =>
      if tenant.status = .active then
        .ok (fn (mkTenantContext tenant options now))
      else
        .error ⟨.TENANT_NOT_ACTIVE, "Tenant " ++ options.tenantId ++ " is not active"⟩

/-! ## Isolation guards (`src/platform/tenancy/isolation-guards.ts`) -/

inductive IsolationViolationType where
  | CROSS_TENANT_QUERY
  | CROSS_TENANT_CACHE
  | CROSS_TENANT_EXPORT
  | CROSS_TENANT_EVENT
  | MISSING_PARTITION_KEY
  | INVALID_PARTITION_KEY
  | MULTI_TENANT_JOIN
  | SHARED_RESOURCE_ACCESS
deriving DecidableEq

structure IsolationViolation where
  type : IsolationViolationType
  message : String
  tenantId : String
  attemptedResource : Option String
  timestamp : Nat
  correlationId : String
deriving DecidableEq

/-- `reportViolation`: builds the violation record, dispatches it to the
violation handler, and throws `TenantContextError('CROSS_TENANT_ACCESS', …)`.
The model returns the dispatched violation paired with the thrown error. -/
def reportViolation (ctx : TenantContext) (now : Nat) (type : IsolationViolationType)
    (message : String) (attemptedResource : Option String) :
    IsolationViolation × TenantContextError :=
  (⟨type, message, ctx.tenant.id, attemptedResource, now, ctx.correlationId⟩,
   ⟨.CROSS_TENANT_ACCESS, "Isolation violation: " ++ message⟩)

/-- A JS record as seen by `ExportGuard.validateExportData`: a finite map from
field names to string values.  An absent field reads as `undefined`. -/
def ExportRecord : Type := List (String × String)

/-- Inner loop of `ExportGuard.validateExportData`, carrying the index `i`. -/
def validateExportLoop (ctx : TenantContext) (now : Nat) (tenantIdField : String)
    (currentTenantId : String) :
    List ExportRecord → Nat → Except (IsolationViolation × TenantContextError) Unit
  | [], _ => .ok ()
  | record :: rest, i =>
      let recordTenantId := alLookup record tenantIdField
      if recordTenantId = some currentTenantId then
        validateExportLoop ctx now tenantIdField currentTenantId rest (i + 1)
      else
        .error (reportViolation ctx now .CROSS_TENANT_EXPORT
          ("Export contains record from different tenant at index " ++ toString i)
          (some (match recordTenantId with
                 | some v => v
                 | none => "undefined")))

/-- `ExportGuard.validateExportData(records, tenantIdField = 'tenantId')`:
walks the records in order and aborts at the first record whose tenant-id
field differs from the current tenant (reporting a `CROSS_TENANT_EXPORT`
violation, then throwing); returns normally when every record matches.
`String(undefined)` for a missing field is the literal `"undefined"`. -/
def validateExportData (ctx : TenantContext) (now : Nat) (records : List ExportRecord)
    (tenantIdField : String := "tenantId") :
    Except (IsolationViolation × TenantContextError) Unit :=
  validateExportLoop ctx now tenantIdField ctx.tenant.id records 0

end UltraWealth

namespace UltraWealth

/-! ## Governance adapter (`governance-adapter.ts`, `src/unnamed/part_004`) -/

structure GovernanceEnforcement where
  forbiddenAdvisoryTerms : List String
  forbiddenExecutionTerms : List String
  forbiddenSorPatterns : List String
  forbiddenDependencies : List String
  advisoryAllowed : Bool
  executionAllowed : Bool
  sorAllowed : Bool
deriving DecidableEq

structure GovernanceProfile where
  name : TenantProfile
  displayName : String
  enforcement : GovernanceEnforcement
deriving DecidableEq

inductive GovernanceViolationType where
  | ADVISORY_LANGUAGE
  | EXECUTION_CAPABILITY
  | SOR_LEAKAGE
  | FORBIDDEN_DEPENDENCY
deriving DecidableEq

inductive ViolationSeverity where
  | error
  | warning
deriving DecidableEq

structure GovernanceViolation where
  type : GovernanceViolationType
  term : String
  context : String
  severity : ViolationSeverity
  profile : TenantProfile
  timestamp : Nat
deriving DecidableEq

/-- `FO_PROFILE`: the family-office profile, term lists verbatim. -/
def FO_PROFILE : GovernanceProfile :=
  { name := .fo
    displayName := "Family Office"
    enforcement :=
      { forbiddenAdvisoryTerms :=
          ["recommend", "recommended", "suggest", "suggested", "advise", "advised",
           "optimise", "optimize", "allocate", "allocation", "outperform",
           "beat the market", "should invest", "consider investing",
           "investment opportunity", "buy", "sell", "hold"]
        forbiddenExecutionTerms :=
          ["execute", "placeOrder", "submitTrade", "rebalance", "trade", "order",
           "transact"]
        forbiddenSorPatterns :=
          ["updateBalance", "setBalance", "mutateBalance", "reconcilePosition",
           "postTransaction", "createJournalEntry", "postJournal", "updateLedger",
           "ledgerEntry"]
        forbiddenDependencies :=
          ["@turingos/ledger", "@turingos/execution", "@turingos/trading",
           "@turingos/oms", "@turingos/decision-engine", "@turingos/allocation-engine"]
        advisoryAllowed := false
        executionAllowed := false
        sorAllowed := false } }

/-- `RETAIL_PROFILE`: the retail profile, term lists verbatim. -/
def RETAIL_PROFILE : GovernanceProfile :=
  { name := .retail
    displayName := "Retail"
    enforcement :=
      { forbiddenAdvisoryTerms :=
          ["recommend", "recommended", "suggest", "suggested", "advise", "advised",
           "should invest", "consider investing"]
        forbiddenExecutionTerms := ["execute", "placeOrder", "submitTrade", "rebalance"]
        forbiddenSorPatterns :=
          ["updateBalance", "setBalance", "postTransaction", "updateLedger"]
        forbiddenDependencies :=
          ["@turingos/ledger", "@turingos/execution", "@turingos/trading", "@turingos/oms"]
        advisoryAllowed := false
        executionAllowed := false
        sorAllowed := false } }

/-- `ADVISOR_PROFILE`: advisory language allowed, empty advisory term list. -/
def ADVISOR_PROFILE : GovernanceProfile :=
  { name := .advisor
    displayName := "Advisor"
    enforcement :=
      { forbiddenAdvisoryTerms := []
        forbiddenExecutionTerms := ["execute", "placeOrder", "submitTrade", "rebalance"]
        forbiddenSorPatterns :=
          ["updateBalance", "setBalance", "postTransaction", "updateLedger"]
        forbiddenDependencies :=
          ["@turingos/ledger", "@turingos/execution", "@turingos/trading", "@turingos/oms"]
        advisoryAllowed := true
        executionAllowed := false
        sorAllowed := false } }

/-- The `PROFILES` registry keyed by tenant profile. -/
def getProfile : TenantProfile → GovernanceProfile
  | .fo => FO_PROFILE
  | .retail => RETAIL_PROFILE
  | .advisor => ADVISOR_PROFILE

/-! String scanning primitives.  `strToLower` models
`String.prototype.toLowerCase` (ASCII-faithful), `strIncludes` models
`String.prototype.includes` (plain substring search), and `firstMatchPos`
models `String.prototype.indexOf` (`none` for `-1`). -/

def strToLower (s : String) : String := ⟨s.data.map Char.toLower⟩

/-- `leadMatch needle l` is true when `needle` is an initial run of `l`. -/
def leadMatch : List Char → List Char → Bool
  | [], _ => true
  | _ :: _, [] => false
  | n :: ns, h :: hs => (n == h) && leadMatch ns hs

/-- The needle occurs in the haystack starting at position `i`. -/
def occursAt (hay nd : List Char) (i : Nat) : Bool := leadMatch nd (hay.drop i)

def strIncludes (hay nd : String) : Bool :=
  (List.range (hay.data.length + 1)).any (occursAt hay.data nd.data)

def firstMatchPos (hay nd : List Char) : Option Nat :=
  ((List.range (hay.length + 1)).filter (fun i => occursAt hay nd i)).head?

/-- `GovernanceAdapter.extractContext`: a 30-characters-each-side excerpt of
the text around the first (case-insensitive) occurrence of the term. -/
def extractContext (text term : String) : String :=
  match firstMatchPos (strToLower text).data (strToLower term).data with
  | none => ""
  | some index =>
      let start := index - 30
      let stop := min text.data.length (index + term.data.length + 30)
      "..." ++ (⟨(text.data.drop start).take (stop - start)⟩ : String) ++ "..."

/-- The violation record pushed by `checkAdvisoryLanguage` for one term. -/
def mkAdvisoryViolation (p : GovernanceProfile) (now : Nat) (text term : String) :
    GovernanceViolation :=
  { type := .ADVISORY_LANGUAGE
    term := term
    context := extractContext text term
    severity := .error
    profile := p.name
    timestamp := now }

/-- The term loop of `checkAdvisoryLanguage`: one violation per forbidden term
whose lowercase form occurs in the lowercase text. -/
def checkAdvisoryLoop (p : GovernanceProfile) (now : Nat) (text : String) :
    List String → List GovernanceViolation
  | [] => []
  | term :: rest =>
      (if strIncludes (strToLower text) (strToLower term)
       then [mkAdvisoryViolation p now text term]
       else [])
      ++ checkAdvisoryLoop p now text rest

/-- `GovernanceAdapter.checkAdvisoryLanguage(text)`: no violations when the
profile allows advisory language, otherwise the term scan above. -/
def checkAdvisoryLanguage (p : GovernanceProfile) (now : Nat) (text : String) :
    List GovernanceViolation :=
  if p.enforcement.advisoryAllowed then []
  else checkAdvisoryLoop p now text p.enforcement.forbiddenAdvisoryTerms

/-! Word-boundary regex model for `sanitizeContent`, which tests and replaces
with `new RegExp('\\b' + term + '\\b', 'gi')` — unlike `checkAdvisoryLanguage`,
which uses plain substring `includes`. -/

/-- JS regex word character (`\w`): ASCII alphanumeric or underscore. -/
def isWordChar (c : Char) : Bool := c.isAlphanum || c == '_'

def wordAt (l : List Char) (i : Nat) : Bool :=
  match l[i]? with
  | some c => isWordChar c
  | none => false

/-- A `\b` assertion holds at position `p` (between characters `p - 1` and
`p`) when exactly one side is a word character; outside the string counts as
non-word. -/
def boundaryAt (l : List Char) (p : Nat) : Bool :=
  (if p = 0 then false else wordAt l (p - 1)) != wordAt l p

/-- The regex `\bterm\b` (flags `gi`) matches at position `i` of `text`. -/
def matchWB (text term : List Char) (i : Nat) : Bool :=
  occursAt (text.map Char.toLower) (term.map Char.toLower) i
    && boundaryAt text i && boundaryAt text (i + term.length)

/-- `RegExp.prototype.test` for `\bterm\b` with flags `gi`. -/
def testWB (text term : List Char) : Bool :=
  (List.range (text.length + 1)).any (matchWB text term)

def redactedChars : List Char := "[REDACTED]".data

/-- Left-to-right, non-overlapping global replacement of `\bterm\b` matches
by `[REDACTED]`, as `String.prototype.replace` with a `g`-flagged regex.  The
fuel argument only bounds the recursion; each step advances the scan. -/
def replaceWBFrom (text term : List Char) : Nat → Nat → List Char
  | _, 0 => []
  | i, fuel + 1 =>
      if i < text.length then
        if matchWB text term i then
          redactedChars ++ replaceWBFrom text term (i + term.length) fuel
        else
          text.getD i ' ' :: replaceWBFrom text term (i + 1) fuel
      else []

def replaceWB (text term : List Char) : List Char :=
  replaceWBFrom text term 0 (text.length + 1)

/-- The term loop of `sanitizeContent`: test each forbidden advisory term
against the current sanitized text; on a match, replace all word-boundary
occurrences and record the term. -/
def sanitizeLoop : List String → List Char → List Char × List String
  | [], sanitized => (sanitized, [])
  | term :: rest, sanitized =>
      if testWB sanitized term.data then
        let result := sanitizeLoop rest (replaceWB sanitized term.data)
        (result.1, term :: result.2)
      else sanitizeLoop rest sanitized

/-- `sanitizeContent(content)`: redacts word-boundary occurrences of the
profile's forbidden advisory terms, returning the sanitized text and the list
of removed terms. -/
def sanitizeContent (p : GovernanceProfile) (content : String) :
    String × List String :=
  let result := sanitizeLoop p.enforcement.forbiddenAdvisoryTerms content.data
  (⟨result.1⟩, result.2)

end UltraWealth

namespace UltraWealth

/-! ## Event store (`src/platform/evidence/event-store.ts`) -/

structure EventMetadata where
  correlationId : String
  causationId : Option String
  userId : Option String
  source : String
deriving DecidableEq

/-- `Partial<EventMetadata>` as passed to `append`: per-field overrides
spread over the defaults. -/
structure MetadataOverrides where
  correlationId : Option String := none
  causationId : Option (Option String) := none
  userId : Option (Option String) := none
  source : Option String := none
deriving DecidableEq

/-- The object spread `{correlationId, userId, source, ...metadata}`. -/
def mergeMetadata (defaults : EventMetadata) (o : MetadataOverrides) : EventMetadata :=
  { correlationId := o.correlationId.getD defaults.correlationId
    causationId := o.causationId.getD defaults.causationId
    userId := o.userId.getD defaults.userId
    source := o.source.getD defaults.source }

/-- Every `DomainEvent` field except `hash` and `previousHash`: the data a
hash covers besides the previous link. -/
structure EventCore where
  id : String
  type : String
  version : Nat
  tenantId : String
  partitionKey : String
  aggregateId : String
  aggregateType : String
  sequence : Nat
  payload : String
  evidenceRefs : List String
  metadata : EventMetadata
  occurredAt : Nat
  recordedAt : Nat
deriving DecidableEq

/-- An idealized SHA-256 digest of a canonically serialized event: injective
in exactly the hashed data (all fields except `hash`, i.e. the core fields
plus the `previousHash` link). -/
inductive EventHash where
  | first (core : EventCore)
  | chained (core : EventCore) (prev : EventHash)
deriving DecidableEq

structure DomainEvent where
  id : String
  type : String
  version : Nat
  tenantId : String
  partitionKey : String
  aggregateId : String
  aggregateType : String
  sequence : Nat
  payload : String
  evidenceRefs : List String
  metadata : EventMetadata
  occurredAt : Nat
  recordedAt : Nat
  hash : EventHash
  previousHash : Option EventHash
deriving DecidableEq

def eventCore (e : DomainEvent) : EventCore :=
  ⟨e.id, e.type, e.version, e.tenantId, e.partitionKey, e.aggregateId,
   e.aggregateType, e.sequence, e.payload, e.evidenceRefs, e.metadata,
   e.occurredAt, e.recordedAt⟩

/-- `calculateHash(eventData)`: SHA-256 over the canonical JSON serialization
of every event field except `hash` (dates in fixed ISO form), idealized as an
injective constructor over exactly that data. -/
def calculateHash (core : EventCore) (previousHash : Option EventHash) : EventHash :=
  match previousHash with
  | none => .first core
  | some p => .chained core p

def mkEvent (core : EventCore) (hash : EventHash) (previousHash : Option EventHash) :
    DomainEvent :=
  { id := core.id, type := core.type, version := core.version
    tenantId := core.tenantId, partitionKey := core.partitionKey
    aggregateId := core.aggregateId, aggregateType := core.aggregateType
    sequence := core.sequence, payload := core.payload
    evidenceRefs := core.evidenceRefs, metadata := core.metadata
    occurredAt := core.occurredAt, recordedAt := core.recordedAt
    hash := hash, previousHash := previousHash }

/-- The three private maps of `EventStoreImpl`. -/
structure EventStoreState where
  events : List (String × List DomainEvent)
  aggregateSequences : List (String × Nat)
  lastHashes : List (String × EventHash)
deriving DecidableEq

def getTenantKey (partitionKey : String) : String := "events:" ++ partitionKey

/-- The template literal `${partitionKey}:${aggregateType}:${aggregateId}`. -/
def aggregateKeyOf (partitionKey aggregateType aggregateId : String) : String :=
  partitionKey ++ ":" ++ aggregateType ++ ":" ++ aggregateId

/-- Inputs to one `append` call.  `newId` is the `randomUUID()` draw and
`now` the wall clock reading for `occurredAt`/`recordedAt`. -/
structure AppendArgs where
  type : String
  aggregateId : String
  aggregateType : String
  payload : String
  evidenceRefs : List String := []
  metadata : MetadataOverrides := {}
  newId : String
  now : Nat
deriving DecidableEq

def eventsOf (st : EventStoreState) (partitionKey : String) : List DomainEvent :=
  (alLookup st.events (getTenantKey partitionKey)).getD []

/-- `EventStoreImpl.append`: draws the next per-aggregate sequence number,
links `previousHash` to the partition's last hash, hashes the event data,
and appends the frozen event to the tenant's ordered list.  The method body
has no internal suspension point, so each call is one atomic transition. -/
def append (ctx : TenantContext) (a : AppendArgs) (st : EventStoreState) :
    DomainEvent × EventStoreState :=
  let tenantId := ctx.tenant.id
  let partitionKey := ctx.tenant.partitionKey
  let tenantKey := getTenantKey partitionKey
  let current := (alLookup st.events tenantKey).getD []
  let aggregateKey := aggregateKeyOf partitionKey a.aggregateType a.aggregateId
  let sequence := (alLookup st.aggregateSequences aggregateKey).getD 0 + 1
  let previousHash := alLookup st.lastHashes tenantKey
  let core : EventCore :=
    { id := a.newId
      type := a.type
      version := 1
      tenantId := tenantId
      partitionKey := partitionKey
      aggregateId := a.aggregateId
      aggregateType := a.aggregateType
      sequence := sequence
      payload := a.payload
      evidenceRefs := a.evidenceRefs
      metadata := mergeMetadata
        ⟨ctx.correlationId, none, ctx.userId, "ultrawealth-platform"⟩ a.metadata
      occurredAt := a.now
      recordedAt := a.now }
  let hash := calculateHash core previousHash
  let event := mkEvent core hash previousHash
  (event,
   { events := alInsert st.events tenantKey (current ++ [event])
     aggregateSequences := alInsert st.aggregateSequences aggregateKey sequence
     lastHashes := alInsert st.lastHashes tenantKey hash })

structure EventQuery where
  aggregateId : Option String := none
  aggregateType : Option String := none
  eventType : Option String := none
  fromTime : Option Nat := none
  toTime : Option Nat := none
  fromSequence : Option Nat := none
  limit : Option Nat := none
  cursor : Option String := none
deriving DecidableEq

structure EventPage where
  events : List DomainEvent
  nextCursor : Option String
  hasMore : Bool
deriving DecidableEq

/-- JS truthiness of an optional string filter (`undefined` and `''` falsy). -/
def strTruthy (o : Option String) : Bool := o.getD "" != ""

/-- JS truthiness of an optional number filter (`undefined` and `0` falsy). -/
def natTruthy (o : Option Nat) : Bool := o.getD 0 != 0

/-- The filter predicate of `EventStoreImpl.query`. -/
def queryFilter (q : EventQuery) (e : DomainEvent) : Bool :=
  (if strTruthy q.aggregateId then e.aggregateId == q.aggregateId.getD "" else true)
  && (if strTruthy q.aggregateType then e.aggregateType == q.aggregateType.getD "" else true)
  && (if strTruthy q.eventType then e.type == q.eventType.getD "" else true)
  && (if q.fromTime.isSome then decide (q.fromTime.getD 0 ≤ e.occurredAt) else true)
  && (if q.toTime.isSome then decide (e.occurredAt ≤ q.toTime.getD 0) else true)
  && (if natTruthy q.fromSequence then decide (q.fromSequence.getD 0 ≤ e.sequence) else true)

/-- Cursor pagination: resume strictly after the event whose id matches. -/
def applyCursor (q : EventQuery) (l : List DomainEvent) : List DomainEvent :=
  if strTruthy q.cursor then
    match l.findIdx? (fun e => e.id == q.cursor.getD "") with
    | some i => l.drop (i + 1)
    | none => l
  else l

/-- `EventStoreImpl.query`: partition-scoped filtered page in insertion
order, with cursor and a default limit of 100. -/
def query (ctx : TenantContext) (q : EventQuery) (st : EventStoreState) : EventPage :=
  let partitionKey := ctx.tenant.partitionKey
  let allEvents := (alLookup st.events (getTenantKey partitionKey)).getD []
  let filtered := applyCursor q (allEvents.filter (queryFilter q))
  let limit := q.limit.getD 100
  let hasMore := decide (filtered.length > limit)
  let events := filtered.take limit
  { events := events
    nextCursor := if hasMore then (events.getLast?).map (fun e => e.id) else none
    hasMore := hasMore }

/-- `EventStoreImpl.getAggregateEvents(type, id)`: the events page for the
aggregate-scoped query. -/
def getAggregateEvents (ctx : TenantContext) (aggregateType aggregateId : String)
    (st : EventStoreState) : List DomainEvent :=
  (query ctx { aggregateType := some aggregateType, aggregateId := some aggregateId } st).events

/-- The two per-event checks of `verifyChainIntegrity`, in loop order. -/
def verifyEventErrors (previousHash : Option EventHash) (e : DomainEvent) : List String :=
  (if e.previousHash ≠ previousHash
   then ["Event " ++ e.id ++ ": previous hash mismatch"]
   else [])
  ++ (if e.hash ≠ calculateHash (eventCore e) e.previousHash
      then ["Event " ++ e.id ++ ": hash mismatch"]
      else [])

/-- The verification walk, threading the previous event's stored hash. -/
def verifyErrorsFrom : Option EventHash → List DomainEvent → List String
  | _, [] => []
  | previousHash, e :: rest =>
      verifyEventErrors previousHash e ++ verifyErrorsFrom (some e.hash) rest

structure VerifyResult where
  valid : Bool
  errors : List String
deriving DecidableEq

/-- `EventStoreImpl.verifyChainIntegrity()`: walks the current tenant's
event list, checking each event's `previousHash` link and recomputed hash. -/
def verifyChainIntegrity (ctx : TenantContext) (st : EventStoreState) : VerifyResult :=
  let events := (alLookup st.events (getTenantKey ctx.tenant.partitionKey)).getD []
  let errors := verifyErrorsFrom none events
  { valid := errors.length == 0, errors := errors }

/-- One `append` call in a trace: the active tenant context it runs under
and its arguments. -/
structure AppendStep where
  ctx : TenantContext
  args : AppendArgs
deriving DecidableEq

def emptyEventStore : EventStoreState := ⟨[], [], []⟩

/-- A trace of `append` calls, each an atomic transition (any interleaving
of concurrent appends is some such trace). -/
def runAppends : EventStoreState → List AppendStep → EventStoreState
  | st, [] => st
  | st, s :: rest => runAppends (append s.ctx s.args st).2 rest

end UltraWealth

namespace UltraWealth

/-! ## Evidence linker (`evidence-linker.ts`, `src/unnamed/part_005`) -/

inductive EvidenceType where
  | document
  | statement
  | valuation
  | screenshot
  | api_response
  | manual_entry
  | external_report
deriving DecidableEq

/-- An idealized SHA-256 hex digest of raw content bytes: injective in the
bytes. -/
structure Sha256 where
  bytes : List Nat
deriving DecidableEq

def sha256 (content : List Nat) : Sha256 := ⟨content⟩

/-- The evidence record.  The free-form `metadata` record (opaque to every
operation) is not modelled. -/
structure Evidence where
  id : String
  type : EvidenceType
  tenantId : String
  partitionKey : String
  description : String
  source : String
  mimeType : String
  sizeBytes : Nat
  contentHash : Sha256
  storageLocation : String
  capturedAt : Nat
  linkedAt : Nat
  linkedBy : Option String
  linkedEvents : List String
deriving DecidableEq

/-- An `EvidenceCreateRequest`; string content stands for its UTF-8 bytes. -/
structure EvidenceCreateRequest where
  type : EvidenceType
  description : String
  source : String
  mimeType : String
  content : List Nat
  capturedAt : Option Nat := none
deriving DecidableEq

/-- The three private maps of `EvidenceLinkerImpl`. -/
structure EvidenceStoreState where
  evidence : List (String × Evidence)
  contentStore : List (String × List Nat)
  eventToEvidence : List (String × List String)
deriving DecidableEq

def evidenceTenantKey (partitionKey : String) : String := "evidence:" ++ partitionKey

def emptyEvidenceStore : EvidenceStoreState := ⟨[], [], []⟩

/-- `EvidenceLinkerImpl.create`: hashes the content bytes, derives the
storage location `${partitionKey}/evidence/${id}`, and stores the record and
the content. -/
def create (ctx : TenantContext) (request : EvidenceCreateRequest) (newId : String)
    (now : Nat) (st : EvidenceStoreState) : Evidence × EvidenceStoreState :=
  let tenantId := ctx.tenant.id
  let partitionKey := ctx.tenant.partitionKey
  let contentHash := sha256 request.content
  let storageLocation := partitionKey ++ "/evidence/" ++ newId
  let ev : Evidence :=
    { id := newId
      type := request.type
      tenantId := tenantId
      partitionKey := partitionKey
      description := request.description
      source := request.source
      mimeType := request.mimeType
      sizeBytes := request.content.length
      contentHash := contentHash
      storageLocation := storageLocation
      capturedAt := request.capturedAt.getD now
      linkedAt := now
      linkedBy := ctx.userId
      linkedEvents := [] }
  let tenantKey := evidenceTenantKey partitionKey
  (ev,
   { st with
     evidence := alInsert st.evidence (tenantKey ++ ":" ++ newId) ev
     contentStore := alInsert st.contentStore storageLocation request.content })

/-- `EvidenceLinkerImpl.getById` (partition-guarded lookup; the guard
compares the current partition key with itself and always passes). -/
def getById (ctx : TenantContext) (evidenceId : String) (st : EvidenceStoreState) :
    Option Evidence :=
  alLookup st.evidence (evidenceTenantKey ctx.tenant.partitionKey ++ ":" ++ evidenceId)

/-- `EvidenceLinkerImpl.getContent`: the stored bytes at the record's
storage location. -/
def getContent (ctx : TenantContext) (evidenceId : String) (st : EvidenceStoreState) :
    Option (List Nat) :=
  match getById ctx evidenceId st with
  | none => none
  | some ev => alLookup st.contentStore ev.storageLocation

structure IntegrityResult where
  valid : Bool
  expectedHash : Sha256
  actualHash : Sha256
deriving DecidableEq

/-- `EvidenceLinkerImpl.verifyIntegrity`: recomputes the hash of the stored
content bytes and compares it with the recorded `contentHash`. -/
def verifyIntegrity (ctx : TenantContext) (evidenceId : String)
    (st : EvidenceStoreState) : Except String IntegrityResult :=
  match getById ctx evidenceId st with
  | none => .error ("Evidence " ++ evidenceId ++ " not found")
  | some ev =>
      match getContent ctx evidenceId st with
      | none => .error ("Evidence content not found for " ++ evidenceId)
      | some content =>
          let actualHash := sha256 content
          .ok { valid := actualHash == ev.contentHash
                expectedHash := ev.contentHash
                actualHash := actualHash }

/-- `EvidenceLinkerImpl.getForEvent`: all evidence records linked to an
event, via the reverse index. -/
def getForEvent (ctx : TenantContext) (eventId : String) (st : EvidenceStoreState) :
    List Evidence :=
  match alLookup st.eventToEvidence eventId with
  | none => []
  | some ids => ids.filterMap (fun i => getById ctx i st)

end UltraWealth

namespace UltraWealth

/-! ## Replay engine (`replay-engine.ts`, `src/unnamed/part_006`) -/

structure ReplayOptions where
  asOf : Option Nat := none
  upToEventId : Option String := none
  eventTypes : Option (List String) := none
  aggregateId : Option String := none
  aggregateType : Option String := none
  includeEvidence : Bool := false
deriving DecidableEq

structure ReplayResult (TState : Type) where
  state : TState
  events : List DomainEvent
  evidence : List Evidence
  asOf : Option Nat
  eventCount : Nat
  durationMs : Nat

/-- A `ReplayEngine<TState>`: the initial state value given to the
constructor and the event-type-indexed registry of pure reducers. -/
structure ReplayEngine (TState : Type) where
  initialState : TState
  handlers : List (String × (TState → DomainEvent → TState))

/-- `ReplayEngine.deepClone`: `JSON.parse(JSON.stringify(obj))`.  On the
JSON-serializable state values replay folds over, the round trip produces a
structurally equal, freshly allocated value sharing nothing with the
original; in this value-level embedding that independent deep copy is the
value itself. -/
def deepClone {TState : Type} (obj : TState) : TState := obj

/-- The reducer fold of `replay`: events in stored order, unknown event
types silently skipped. -/
def replayFold {TState : Type}
    (handlers : List (String × (TState → DomainEvent → TState))) :
    TState → List DomainEvent → TState
  | state, [] => state
  | state, e :: rest =>
      match alLookup handlers e.type with
      | some handler => replayFold handlers (handler state e) rest
      | none => replayFold handlers state rest

/-- The event-type allowlist filter of `replay`
(`options.eventTypes && options.eventTypes.length > 0`). -/
def applyEventTypes (eventTypes : Option (List String)) (events : List DomainEvent) :
    List DomainEvent :=
  match eventTypes with
  | some types =>
      if types.length != 0 then events.filter (fun e => types.contains e.type) else events
  | none => events

/-- The exclusive `upToEventId` cut of `replay`. -/
def applyUpToEventId (upToEventId : Option String) (events : List DomainEvent) :
    List DomainEvent :=
  if strTruthy upToEventId then
    match events.findIdx? (fun e => e.id == upToEventId.getD "") with
    | some i => events.take i
    | none => events
  else events

/-- `ReplayEngine.replay(options)`: queries the store (aggregate filters and
`asOf` upper bound), applies the allowlist and the exclusive cut, folds the
reducers over a fresh deep copy of the initial state, and optionally
accumulates the evidence linked to each replayed event.  `startTime` and
`endTime` are the two `Date.now()` readings around the body. -/
def replay {TState : Type} (ctx : TenantContext) (engine : ReplayEngine TState)
    (opts : ReplayOptions) (store : EventStoreState) (linker : EvidenceStoreState)
    (startTime endTime : Nat) : ReplayResult TState :=
  let q : EventQuery :=
    { aggregateId := opts.aggregateId
      aggregateType := opts.aggregateType
      toTime := opts.asOf }
  let eventPage := query ctx q store
  let events := applyUpToEventId opts.upToEventId
    (applyEventTypes opts.eventTypes eventPage.events)
  let state := replayFold engine.handlers (deepClone engine.initialState) events
  let evidence :=
    if opts.includeEvidence then events.flatMap (fun e => getForEvent ctx e.id linker)
    else []
  { state := state
    events := events
    evidence := evidence
    asOf := (events.getLast?).map (fun e => e.occurredAt)
    eventCount := events.length
    durationMs := endTime - startTime }

end UltraWealth

namespace UltraWealth

/-! ## Chain-integrity and sequence predicates over the event store -/

/-- Validity of an event list as a hash chain continuing from `prev`: each
event's `previousHash` links to the running hash and its stored hash equals
the recomputed hash of its data — exactly the two checks of
`verifyChainIntegrity`. -/
def chainOk : Option EventHash → List DomainEvent → Bool
  | _, [] => true
  | prev, e :: rest =>
      (e.previousHash == prev) && (e.hash == calculateHash (eventCore e) e.previousHash)
        && chainOk (some e.hash) rest

/-- The hash of the last event of the list, or `prev` for an empty list:
the value the partition's last-hash pointer must hold. -/
def chainLast : Option EventHash → List DomainEvent → Option EventHash
  | prev, [] => prev
  | _, e :: rest => chainLast (some e.hash) rest

/-- Event `e'` is `e` with exactly one stored field replaced by a different
value. -/
def oneFieldDiff (e e' : DomainEvent) : Prop :=
  (∃ v, v ≠ e.id ∧ e' = { e with id := v })
  ∨ (∃ v, v ≠ e.type ∧ e' = { e with type := v })
  ∨ (∃ v, v ≠ e.version ∧ e' = { e with version := v })
  ∨ (∃ v, v ≠ e.tenantId ∧ e' = { e with tenantId := v })
  ∨ (∃ v, v ≠ e.partitionKey ∧ e' = { e with partitionKey := v })
  ∨ (∃ v, v ≠ e.aggregateId ∧ e' = { e with aggregateId := v })
  ∨ (∃ v, v ≠ e.aggregateType ∧ e' = { e with aggregateType := v })
  ∨ (∃ v, v ≠ e.sequence ∧ e' = { e with sequence := v })
  ∨ (∃ v, v ≠ e.payload ∧ e' = { e with payload := v })
  ∨ (∃ v, v ≠ e.evidenceRefs ∧ e' = { e with evidenceRefs := v })
  ∨ (∃ v, v ≠ e.metadata ∧ e' = { e with metadata := v })
  ∨ (∃ v, v ≠ e.occurredAt ∧ e' = { e with occurredAt := v })
  ∨ (∃ v, v ≠ e.recordedAt ∧ e' = { e with recordedAt := v })
  ∨ (∃ v, v ≠ e.hash ∧ e' = { e with hash := v })
  ∨ (∃ v, v ≠ e.previousHash ∧ e' = { e with previousHash := v })

/-- Tampering with the stored event at position `i` of one tenant
partition's list, leaving every other stored field of the store intact. -/
def tamperAt (st : EventStoreState) (partitionKey : String) (i : Nat)
    (e' : DomainEvent) : EventStoreState :=
  { st with events := (alInsert st.events (getTenantKey partitionKey)
      ((eventsOf st partitionKey).set i e')) }

/-- The chain invariant `append` maintains: every partition's stored list is
a valid chain and the partition's last-hash pointer holds its last hash. -/
def chainInv (st : EventStoreState) : Prop :=
  ∀ pk, chainOk none (eventsOf st pk) = true
      ∧ alLookup st.lastHashes (getTenantKey pk) = chainLast none (eventsOf st pk)

/-- The events of one aggregate in one partition, in stored order. -/
def aggEventsOf (st : EventStoreState) (pk ty aid : String) : List DomainEvent :=
  (eventsOf st pk).filter (fun e => e.aggregateType == ty && e.aggregateId == aid)

/-- The per-aggregate sequence invariant, for partitions and aggregate types
whose names contain no `':'` (so the string-encoded counter keys
`${partitionKey}:${aggregateType}:${aggregateId}` cannot collide): the
counter equals the aggregate's event count, and the stored sequence numbers
are exactly 1, 2, …, count in order. -/
def seqInv (st : EventStoreState) : Prop :=
  ∀ pk ty aid, colonFree pk → colonFree ty →
    (alLookup st.aggregateSequences (aggregateKeyOf pk ty aid)).getD 0
        = (aggEventsOf st pk ty aid).length
    ∧ (aggEventsOf st pk ty aid).map (fun e => e.sequence)
        = List.range' 1 (aggEventsOf st pk ty aid).length

def defaultEventCore : EventCore :=
  ⟨"", "", 0, "", "", "", "", 0, "", [], ⟨"", none, none, ""⟩, 0, 0⟩

def defaultEvent : DomainEvent := mkEvent defaultEventCore (.first defaultEventCore) none

end UltraWealth

namespace UltraWealth

/-! ## Helper lemmas -/

theorem alLookup_alInsert_self {α : Type} (l : List (String × α)) (k : String) (v : α) :
    alLookup (alInsert l k v) k = some v := by
  induction l with
  | nil => simp [alInsert, alLookup]
  | cons hd tl ih =>
      obtain ⟨k', w⟩ := hd
      by_cases h : k' = k <;> simp [alInsert, alLookup, h, ih]

theorem alLookup_alInsert_ne {α : Type} (l : List (String × α)) (k k' : String) (v : α)
    (h : k ≠ k') : alLookup (alInsert l k v) k' = alLookup l k' := by
  induction l with
  | nil => simp [alInsert, alLookup, h]
  | cons hd tl ih =>
      obtain ⟨k'', w⟩ := hd
      by_cases h2 : k'' = k <;> simp [alInsert, alLookup, h2, h, ih]

theorem string_append_data (s t : String) : (s ++ t).data = s.data ++ t.data :=
  String.data_append s t

theorem string_append_left_cancel {a b c : String} (h : a ++ b = a ++ c) : b = c := by
  have hd : (a ++ b).data = (a ++ c).data := by rw [h]
  rw [string_append_data, string_append_data] at hd
  exact String.ext (List.append_cancel_left hd)

/-- A character list split at a separator character that occurs in neither
left part determines both parts uniquely. -/
theorem sep_split {c : Char} {a a' b b' : List Char} (ha : c ∉ a) (ha' : c ∉ a')
    (h : a ++ c :: b = a' ++ c :: b') : a = a' ∧ b = b' := by
  induction a generalizing a' with
  | nil =>
      cases a' with
      | nil => simpa using h
      | cons x xs =>
          simp only [List.nil_append, List.cons_append, List.cons.injEq] at h
          have : c ∈ x :: xs := by rw [h.1]; exact List.mem_cons_self x xs
          exact absurd this ha'
  | cons x xs ih =>
      cases a' with
      | nil =>
          simp only [List.cons_append, List.nil_append, List.cons.injEq] at h
          have : c ∈ x :: xs := by rw [← h.1]; exact List.mem_cons_self x xs
          exact absurd this ha
      | cons y ys =>
          simp only [List.cons_append, List.cons.injEq] at h
          have hxs : c ∉ xs := fun hm => ha (List.mem_cons_of_mem x hm)
          have hys : c ∉ ys := fun hm => ha' (List.mem_cons_of_mem y hm)
          have := ih hxs hys h.2
          exact ⟨by rw [h.1, this.1], this.2⟩

theorem calculateHash_inj {c c' : EventCore} {p p' : Option EventHash}
    (h : calculateHash c p = calculateHash c' p') : c = c' ∧ p = p' := by
  cases p <;> cases p' <;> simp_all [calculateHash]

theorem eventCore_mkEvent (c : EventCore) (h : EventHash) (p : Option EventHash) :
    eventCore (mkEvent c h p) = c := rfl

end UltraWealth

namespace UltraWealth

/-! ## C6: tenant status lifecycle -/

/-- C6: `TenantRegistry.updateStatus(id, newStatus)` succeeds exactly when
(currentStatus, newStatus) is an edge of the fixed lifecycle graph
provisioning→{onboarding, terminated}, onboarding→{active, terminated},
active→{suspended, offboarding}, suspended→{active, offboarding},
offboarding→{terminated}, terminated→{}; otherwise it throws and the
tenant's record (status and updatedAt included) is unchanged — the failing
call returns an error without producing a new registry state, and a
successful call changes only the targeted tenant.  Since success is
equivalent to following an edge, every reachable status history is a path in
the graph, and `terminated`, having no outgoing edges, is absorbing. -/
theorem updateStatus_transition_spec (st : RegistryState) (tenantId : String)
    (status : TenantStatus) (now : Nat) (t : TenantConfig)
    (h : alLookup st.tenants tenantId = some t) :
    ((∃ st', updateStatus st tenantId status now = .ok st')
        ↔ status ∈ validTransitions t.status)
    ∧ (∀ st', updateStatus st tenantId status now = .ok st' →
        alLookup st'.tenants tenantId
            = some { t with status := status, updatedAt := now }
          ∧ ∀ id', id' ≠ tenantId →
              alLookup st'.tenants id' = alLookup st.tenants id')
    ∧ (t.status = .terminated →
        ¬ ∃ st', updateStatus st tenantId status now = .ok st') := by
  by_cases hmem : status ∈ validTransitions t.status
  · have hrun : updateStatus st tenantId status now
        = .ok { st with tenants := (alInsert st.tenants tenantId
                  { t with status := status, updatedAt := now }) } := by
      unfold updateStatus
      rw [h]
      simp [hmem]
    refine ⟨⟨fun _ => hmem, fun _ => ⟨_, hrun⟩⟩, ?_, ?_⟩
    · intro st' hok
      rw [hrun] at hok
      cases hok
      exact ⟨alLookup_alInsert_self _ _ _,
        fun id' hne => alLookup_alInsert_ne _ _ _ _ (fun he => hne he.symm)⟩
    · intro hterm
      rw [hterm] at hmem
      simp [validTransitions] at hmem
  · have hrun : ∃ msg, updateStatus st tenantId status now = .error msg := by
      unfold updateStatus
      rw [h]
      simp [hmem]
    obtain ⟨msg, hrun⟩ := hrun
    refine ⟨?_, ?_, ?_⟩
    · constructor
      · rintro ⟨st', hok⟩
        rw [hrun] at hok
        cases hok
      · intro hm
        exact absurd hm hmem
    · intro st' hok
      rw [hrun] at hok
      cases hok
    · rintro hterm ⟨st', hok⟩
      rw [hrun] at hok
      cases hok

def c6Tenant : TenantConfig :=
  { id := "t1", name := "Acme FO", profile := .fo, status := .provisioning,
    encryptionKeyId := "ek_1", partitionKey := "pk_1", createdAt := 0, updatedAt := 0 }

def c6Reg : RegistryState := ⟨[("t1", c6Tenant)], [("pk_1", "t1")]⟩

theorem updateStatus_transition_spec_witness :
    (∃ st', updateStatus c6Reg "t1" .onboarding 5 = .ok st')
    ∧ ¬ ∃ st', updateStatus c6Reg "t1" .active 5 = .ok st' := by
  have h1 := updateStatus_transition_spec c6Reg "t1" .onboarding 5 c6Tenant (by decide)
  have h2 := updateStatus_transition_spec c6Reg "t1" .active 5 c6Tenant (by decide)
  refine ⟨h1.1.mpr (by decide), fun hex => ?_⟩
  have := h2.1.mp hex
  simp [c6Tenant, validTransitions] at this

end UltraWealth

namespace UltraWealth

/-! ## C7: tenant context installation -/

/-- C7: `withTenantContext(options, fn)` throws a `TenantContextError` with
code `TENANT_NOT_FOUND` when no tenant has id `options.tenantId`; throws
`TENANT_NOT_ACTIVE` when the tenant exists but its status is anything other
than `active` (in particular `provisioning`); and otherwise runs `fn` with
`getTenantContext()` returning a context whose tenant snapshot equals the
registry record for that id — so for an active `fo` tenant (for example one
taken through provisioning→onboarding→active) the installed context has
`tenant.profile = fo`. -/
theorem withTenantContext_spec {α : Type} (st : RegistryState)
    (options : TenantContextOptions) (now : Nat) (fn : TenantContext → α) :
    (alLookup st.tenants options.tenantId = none →
      ∃ msg, withTenantContext st options now fn = .error ⟨.TENANT_NOT_FOUND, msg⟩)
    ∧ (∀ t, alLookup st.tenants options.tenantId = some t → t.status ≠ .active →
      ∃ msg, withTenantContext st options now fn = .error ⟨.TENANT_NOT_ACTIVE, msg⟩)
    ∧ (∀ t, alLookup st.tenants options.tenantId = some t → t.status = .active →
      withTenantContext st options now fn = .ok (fn (mkTenantContext t options now))
        ∧ (mkTenantContext t options now).tenant = t
        ∧ (mkTenantContext t options now).tenant.profile = t.profile) := by
  refine ⟨?_, ?_, ?_⟩
  · intro hnone
    exact ⟨_, by unfold withTenantContext; rw [hnone]⟩
  · intro t hsome hne
    exact ⟨"Tenant " ++ options.tenantId ++ " is not active",
      by unfold withTenantContext; rw [hsome]; simp [hne]⟩
  · intro t hsome hactive
    refine ⟨?_, rfl, rfl⟩
    unfold withTenantContext
    rw [hsome]
    simp [hactive]

def c7Reg0 : RegistryState := ⟨[("t1", c6Tenant)], [("pk_1", "t1")]⟩

/-- The registry after provisioning→onboarding for tenant `t1`. -/
def c7Reg1 : RegistryState :=
  (updateStatus c7Reg0 "t1" .onboarding 1).toOption.getD c7Reg0

/-- The registry after provisioning→onboarding→active for tenant `t1`. -/
def c7Reg2 : RegistryState :=
  (updateStatus c7Reg1 "t1" .active 2).toOption.getD c7Reg1

def c7TenantActive : TenantConfig := { c6Tenant with status := .active, updatedAt := 2 }

def c7Opts : TenantContextOptions :=
  { tenantId := "t1", correlationId := "corr-1", userId := none, roles := none }

theorem withTenantContext_spec_witness :
    (∃ msg, withTenantContext c7Reg0 { c7Opts with tenantId := "ghost" } 9
        (fun c => c.tenant.profile) = .error ⟨.TENANT_NOT_FOUND, msg⟩)
    ∧ (∃ msg, withTenantContext c7Reg0 c7Opts 9
        (fun c => c.tenant.profile) = .error ⟨.TENANT_NOT_ACTIVE, msg⟩)
    ∧ withTenantContext c7Reg2 c7Opts 9 (fun c => c.tenant.profile) = .ok .fo := by
  refine ⟨?_, ?_, ?_⟩
  · exact (withTenantContext_spec c7Reg0 { c7Opts with tenantId := "ghost" } 9
      (fun c => c.tenant.profile)).1 (by decide)
  · exact (withTenantContext_spec c7Reg0 c7Opts 9
      (fun c => c.tenant.profile)).2.1 c6Tenant (by decide) (by decide)
  · have h := (withTenantContext_spec c7Reg2 c7Opts 9
      (fun c => c.tenant.profile)).2.2 c7TenantActive (by decide) (by decide)
    rw [h.1]
    rfl

end UltraWealth

namespace UltraWealth

/-! ## C2: export guard -/

theorem validateExportLoop_ok_iff (ctx : TenantContext) (now : Nat)
    (field cur : String) (records : List ExportRecord) :
    ∀ i0, validateExportLoop ctx now field cur records i0 = .ok ()
      ↔ ∀ r ∈ records, alLookup r field = some cur := by
  induction records with
  | nil => intro i0; simp [validateExportLoop]
  | cons r rest ih =>
      intro i0
      by_cases hr : alLookup r field = some cur
      · simp [validateExportLoop, hr, ih]
      · simp [validateExportLoop, hr]

theorem validateExportLoop_first_error (ctx : TenantContext) (now : Nat)
    (field cur : String) (bad : ExportRecord) (rest : List ExportRecord)
    (hbad : alLookup bad field ≠ some cur) :
    ∀ (good : List ExportRecord) (i0 : Nat),
      (∀ r ∈ good, alLookup r field = some cur) →
      validateExportLoop ctx now field cur (good ++ bad :: rest) i0
        = .error (reportViolation ctx now .CROSS_TENANT_EXPORT
            ("Export contains record from different tenant at index "
              ++ toString (i0 + good.length))
            (some (match alLookup bad field with
                   | some v => v
                   | none => "undefined"))) := by
  intro good
  induction good with
  | nil =>
      intro i0 _
      simp [validateExportLoop, hbad]
  | cons g gs ih =>
      intro i0 hgood
      have hg : alLookup g field = some cur := hgood g (List.mem_cons_self g gs)
      have := ih (i0 + 1) (fun r hr => hgood r (List.mem_cons_of_mem g hr))
      have harith : i0 + 1 + gs.length = i0 + (g :: gs).length := by
        simp only [List.length_cons]
        omega
      simp only [List.cons_append, validateExportLoop, hg, if_pos, List.append_eq]
      rw [this, harith]

/-- C2: under an active tenant context, `ExportGuard.validateExportData`
returns normally exactly when every record's `tenantId` field equals the
current tenant id; at the first mismatching record (position `good.length`
below) it dispatches a `CROSS_TENANT_EXPORT` violation record to the
violation handler and raises a `CROSS_TENANT_ACCESS` error whose message
identifies that index. -/
theorem exportGuard_validateExportData_spec (ctx : TenantContext) (now : Nat)
    (records : List ExportRecord) :
    (validateExportData ctx now records = .ok ()
      ↔ ∀ r ∈ records, alLookup r "tenantId" = some ctx.tenant.id)
    ∧ (∀ (good : List ExportRecord) (bad : ExportRecord) (rest : List ExportRecord),
        records = good ++ bad :: rest →
        (∀ r ∈ good, alLookup r "tenantId" = some ctx.tenant.id) →
        alLookup bad "tenantId" ≠ some ctx.tenant.id →
        validateExportData ctx now records
            = .error (reportViolation ctx now .CROSS_TENANT_EXPORT
                ("Export contains record from different tenant at index "
                  ++ toString good.length)
                (some (match alLookup bad "tenantId" with
                       | some v => v
                       | none => "undefined")))
          ∧ (reportViolation ctx now .CROSS_TENANT_EXPORT
                ("Export contains record from different tenant at index "
                  ++ toString good.length)
                (some (match alLookup bad "tenantId" with
                       | some v => v
                       | none => "undefined"))).1.type = .CROSS_TENANT_EXPORT
          ∧ (reportViolation ctx now .CROSS_TENANT_EXPORT
                ("Export contains record from different tenant at index "
                  ++ toString good.length)
                (some (match alLookup bad "tenantId" with
                       | some v => v
                       | none => "undefined"))).2.code = .CROSS_TENANT_ACCESS) := by
  constructor
  · exact validateExportLoop_ok_iff ctx now "tenantId" ctx.tenant.id records 0
  · intro good bad rest hsplit hgood hbad
    refine ⟨?_, rfl, rfl⟩
    unfold validateExportData
    rw [hsplit]
    have := validateExportLoop_first_error ctx now "tenantId" ctx.tenant.id bad rest
      hbad good 0 hgood
    rw [this]
    simp

def c2Tenant : TenantConfig :=
  { id := "A", name := "Tenant A", profile := .fo, status := .active,
    encryptionKeyId := "ek_A", partitionKey := "pk_A", createdAt := 0, updatedAt := 0 }

def c2Ctx : TenantContext :=
  { tenant := c2Tenant, correlationId := "corr-2", createdAt := 0, userId := none,
    roles := [] }

def c2RecA : ExportRecord := [("tenantId", "A")]

def c2RecB : ExportRecord := [("tenantId", "B")]

theorem exportGuard_validateExportData_spec_witness :
    validateExportData c2Ctx 0 [c2RecA, c2RecB]
      = .error (reportViolation c2Ctx 0 .CROSS_TENANT_EXPORT
          ("Export contains record from different tenant at index " ++ toString 1)
          (some "B")) := by
  have h := (exportGuard_validateExportData_spec c2Ctx 0 [c2RecA, c2RecB]).2
    [c2RecA] c2RecB [] rfl (by decide) (by decide)
  exact h.1

end UltraWealth

namespace UltraWealth

/-! ## C4: advisory-language check -/

theorem leadMatch_iff (n : List Char) : ∀ l, leadMatch n l = true ↔ ∃ r, l = n ++ r := by
  induction n with
  | nil => intro l; simp [leadMatch]
  | cons c cs ih =>
      intro l
      cases l with
      | nil => simp [leadMatch]
      | cons x xs =>
          simp only [leadMatch, Bool.and_eq_true, beq_iff_eq, ih xs, List.cons_append,
            List.cons.injEq]
          constructor
          · rintro ⟨rfl, r, rfl⟩
            exact ⟨r, rfl, rfl⟩
          · rintro ⟨r, rfl, rfl⟩
            exact ⟨rfl, r, rfl⟩

theorem strIncludes_iff (hay nd : String) :
    strIncludes hay nd = true ↔ ∃ pre post, hay.data = pre ++ nd.data ++ post := by
  unfold strIncludes occursAt
  simp only [List.any_eq_true, List.mem_range]
  constructor
  · rintro ⟨i, _, hm⟩
    obtain ⟨r, hr⟩ := (leadMatch_iff nd.data (hay.data.drop i)).mp hm
    refine ⟨hay.data.take i, r, ?_⟩
    rw [List.append_assoc, ← hr, List.take_append_drop]
  · rintro ⟨pre, post, hsplit⟩
    refine ⟨pre.length, ?_, ?_⟩
    · have : hay.data.length = pre.length + (nd.data.length + post.length) := by
        rw [hsplit]
        simp [List.length_append]
      omega
    · rw [(leadMatch_iff nd.data (hay.data.drop pre.length))]
      refine ⟨post, ?_⟩
      rw [hsplit, List.append_assoc, List.drop_left]

theorem checkAdvisoryLoop_eq (p : GovernanceProfile) (now : Nat) (text : String)
    (terms : List String) :
    checkAdvisoryLoop p now text terms
      = (terms.filter (fun term => strIncludes (strToLower text) (strToLower term))).map
          (mkAdvisoryViolation p now text) := by
  induction terms with
  | nil => simp [checkAdvisoryLoop]
  | cons term rest ih =>
      by_cases hterm : strIncludes (strToLower text) (strToLower term) = true
      · simp [checkAdvisoryLoop, hterm, ih]
      · simp [checkAdvisoryLoop, hterm, ih]

/-- C4: `checkAdvisoryLanguage(text)` returns no violations when the
profile's `advisoryAllowed` is true; otherwise it returns exactly one
`ADVISORY_LANGUAGE` violation for each forbidden advisory term whose
lowercase form is a substring of the lowercase text (in term-list order, each
carrying the surrounding-text excerpt `extractContext text term`), and no
other violations.  `strIncludes` is substring occurrence, and in particular
the `fo` profile flags "We recommend diversifying" with exactly one
violation, for the term "recommend", while the `advisor` profile returns
zero violations on the same text. -/
theorem checkAdvisoryLanguage_spec (p : GovernanceProfile) (now : Nat) (text : String) :
    (p.enforcement.advisoryAllowed = true → checkAdvisoryLanguage p now text = [])
    ∧ (p.enforcement.advisoryAllowed = false →
        checkAdvisoryLanguage p now text
          = (p.enforcement.forbiddenAdvisoryTerms.filter
                (fun term => strIncludes (strToLower text) (strToLower term))).map
              (mkAdvisoryViolation p now text))
    ∧ (∀ hay nd : String, strIncludes hay nd = true
        ↔ ∃ pre post, hay.data = pre ++ nd.data ++ post)
    ∧ ((checkAdvisoryLanguage FO_PROFILE now "We recommend diversifying").map
        (fun v => (v.type, v.term)) = [(.ADVISORY_LANGUAGE, "recommend")])
    ∧ checkAdvisoryLanguage ADVISOR_PROFILE now "We recommend diversifying" = [] := by
  refine ⟨?_, ?_, strIncludes_iff, ?_, ?_⟩
  · intro h
    simp [checkAdvisoryLanguage, h]
  · intro h
    simp [checkAdvisoryLanguage, h, checkAdvisoryLoop_eq]
  · have hstep : checkAdvisoryLanguage FO_PROFILE now "We recommend diversifying"
        = checkAdvisoryLoop FO_PROFILE now "We recommend diversifying"
            FO_PROFILE.enforcement.forbiddenAdvisoryTerms := by
      simp [checkAdvisoryLanguage, FO_PROFILE]
    have hfilter : FO_PROFILE.enforcement.forbiddenAdvisoryTerms.filter
        (fun term => strIncludes (strToLower "We recommend diversifying")
          (strToLower term)) = ["recommend"] := by decide
    rw [hstep, checkAdvisoryLoop_eq, hfilter]
    rfl
  · rfl

theorem checkAdvisoryLanguage_spec_witness :
    checkAdvisoryLanguage ADVISOR_PROFILE 3 "We recommend diversifying" = []
    ∧ (checkAdvisoryLanguage FO_PROFILE 3 "We recommend diversifying").map
        (fun v => (v.type, v.term)) = [(.ADVISORY_LANGUAGE, "recommend")] :=
  ⟨(checkAdvisoryLanguage_spec ADVISOR_PROFILE 3 "We recommend diversifying").1 rfl,
   (checkAdvisoryLanguage_spec FO_PROFILE 3 "We recommend diversifying").2.2.2.1⟩

end UltraWealth

namespace UltraWealth

/-! ## C10: sanitizeContent vs checkAdvisoryLanguage -/

/-- C10: `sanitizeContent` redacts a forbidden advisory term only at
word-boundary occurrences (it does redact "buy" in "please buy now"),
whereas `checkAdvisoryLanguage` flags any substring occurrence; hence under
the `fo` profile (advisoryAllowed = false) the input "buyer" — where "buy"
occurs only inside a longer word — is returned unchanged by
`sanitizeContent` with an empty `removedTerms` list, yet
`checkAdvisoryLanguage` reports an ADVISORY_LANGUAGE violation for "buy" on
it, so sanitizing does not guarantee a clean advisory check. -/
theorem sanitize_vs_check_divergence :
    sanitizeContent FO_PROFILE "please buy now" = ("please [REDACTED] now", ["buy"])
    ∧ sanitizeContent FO_PROFILE "buyer" = ("buyer", [])
    ∧ (checkAdvisoryLanguage FO_PROFILE 0 "buyer").map (fun v => (v.type, v.term))
        = [(.ADVISORY_LANGUAGE, "buy")]
    ∧ checkAdvisoryLanguage FO_PROFILE 0 (sanitizeContent FO_PROFILE "buyer").1 ≠ [] := by
  decide

end UltraWealth

namespace UltraWealth

/-! ## C9: evidence content hashing and integrity -/

theorem verifyIntegrity_of_lookup (ctx : TenantContext) (evId : String)
    (st : EvidenceStoreState) (ev : Evidence) (content : List Nat)
    (h1 : getById ctx evId st = some ev)
    (h2 : alLookup st.contentStore ev.storageLocation = some content) :
    verifyIntegrity ctx evId st
      = .ok ⟨sha256 content == ev.contentHash, ev.contentHash, sha256 content⟩ := by
  unfold verifyIntegrity getContent
  rw [h1]
  simp [h2]

/-- C9: `EvidenceLinker.create` records `contentHash` equal to the (idealized)
SHA-256 digest of the exact content bytes supplied; `verifyIntegrity` on the
freshly created evidence, with the stored content unchanged, returns
valid = true with expectedHash = actualHash = contentHash; and if the bytes
stored at the evidence's `storageLocation` are replaced by different bytes
without updating `contentHash`, `verifyIntegrity` returns valid = false with
actualHash ≠ expectedHash. -/
theorem evidence_integrity_spec (ctx : TenantContext) (request : EvidenceCreateRequest)
    (newId : String) (now : Nat) (st : EvidenceStoreState) :
    (create ctx request newId now st).1.contentHash = sha256 request.content
    ∧ verifyIntegrity ctx (create ctx request newId now st).1.id
        (create ctx request newId now st).2
        = .ok ⟨true, sha256 request.content, sha256 request.content⟩
    ∧ (∀ altered, altered ≠ request.content →
        verifyIntegrity ctx (create ctx request newId now st).1.id
            { (create ctx request newId now st).2 with
              contentStore := (alInsert (create ctx request newId now st).2.contentStore
                (create ctx request newId now st).1.storageLocation altered) }
          = .ok ⟨false, sha256 request.content, sha256 altered⟩
          ∧ sha256 altered ≠ sha256 request.content) := by
  have hById : getById ctx (create ctx request newId now st).1.id
      (create ctx request newId now st).2 = some (create ctx request newId now st).1 := by
    unfold getById
    exact alLookup_alInsert_self _ _ _
  refine ⟨rfl, ?_, ?_⟩
  · have h2 : alLookup (create ctx request newId now st).2.contentStore
        (create ctx request newId now st).1.storageLocation = some request.content := by
      exact alLookup_alInsert_self _ _ _
    rw [verifyIntegrity_of_lookup ctx _ _ _ request.content hById h2]
    have hch : (create ctx request newId now st).1.contentHash = sha256 request.content := rfl
    rw [hch, beq_self_eq_true]
  · intro altered hne
    have hById2 : getById ctx (create ctx request newId now st).1.id
        { (create ctx request newId now st).2 with
          contentStore := (alInsert (create ctx request newId now st).2.contentStore
            (create ctx request newId now st).1.storageLocation altered) }
        = some (create ctx request newId now st).1 := hById
    have h2 : alLookup (alInsert (create ctx request newId now st).2.contentStore
        (create ctx request newId now st).1.storageLocation altered)
        (create ctx request newId now st).1.storageLocation = some altered :=
      alLookup_alInsert_self _ _ _
    have hhash : sha256 altered ≠ sha256 request.content := by
      simp [sha256, Sha256.mk.injEq]
      exact hne
    refine ⟨?_, hhash⟩
    rw [verifyIntegrity_of_lookup ctx _ _ _ altered hById2 h2]
    have hch : (create ctx request newId now st).1.contentHash = sha256 request.content := rfl
    have hbeq : (sha256 altered == (create ctx request newId now st).1.contentHash) = false := by
      rw [hch]
      exact beq_eq_false_iff_ne.mpr hhash
    rw [hbeq, hch]

def c9Ctx : TenantContext :=
  { tenant := { id := "tE", name := "Evid", profile := .fo, status := .active,
                encryptionKeyId := "ek_E", partitionKey := "pk_E",
                createdAt := 0, updatedAt := 0 },
    correlationId := "corr-9", createdAt := 0, userId := none, roles := [] }

def c9Request : EvidenceCreateRequest :=
  { type := .document, description := "statement", source := "bank",
    mimeType := "application/pdf", content := [1, 2, 3, 4, 5, 6, 7, 8, 9, 10] }

theorem evidence_integrity_spec_witness :
    ([9, 9, 9] : List Nat) ≠ c9Request.content
    ∧ (create c9Ctx c9Request "ev1" 4 emptyEvidenceStore).1.contentHash
        = sha256 c9Request.content
    ∧ verifyIntegrity c9Ctx "ev1" (create c9Ctx c9Request "ev1" 4 emptyEvidenceStore).2
        = .ok ⟨true, sha256 c9Request.content, sha256 c9Request.content⟩
    ∧ verifyIntegrity c9Ctx "ev1"
        { (create c9Ctx c9Request "ev1" 4 emptyEvidenceStore).2 with
          contentStore := (alInsert
            (create c9Ctx c9Request "ev1" 4 emptyEvidenceStore).2.contentStore
            (create c9Ctx c9Request "ev1" 4 emptyEvidenceStore).1.storageLocation
            [9, 9, 9]) }
        = .ok ⟨false, sha256 c9Request.content, sha256 [9, 9, 9]⟩ := by
  have h := evidence_integrity_spec c9Ctx c9Request "ev1" 4 emptyEvidenceStore
  have h3 := h.2.2 [9, 9, 9] (by decide)
  exact ⟨by decide, h.1, h.2.1, h3.1⟩

end UltraWealth

namespace UltraWealth

/-! ## C5: replay determinism -/

/-- C5: two invocations of `replay` with the same options over an unchanged
stored event sequence, evidence store, and handler registry produce equal
final states (and equal replayed event lists and evidence), regardless of
the wall-clock readings (`t1 t2` vs `t1' t2'`), which influence only
`durationMs`; the final state is exactly the reducer fold over an
independent deep copy of the engine's `initialState` (`deepClone`, the JSON
round trip, which returns a value deep-equal to its argument); and `replay`
is a pure function that returns no modified engine, store or linker — in
this value-level embedding the `initialState` value held by the engine is
therefore the same after any number of replay calls, which is how the
source's non-mutation guarantee (each replay folding over a fresh deep copy)
manifests. -/
theorem replay_deterministic {TState : Type} (ctx : TenantContext)
    (engine : ReplayEngine TState) (opts : ReplayOptions) (store : EventStoreState)
    (linker : EvidenceStoreState) (t1 t2 t1' t2' : Nat) :
    (replay ctx engine opts store linker t1 t2).state
        = (replay ctx engine opts store linker t1' t2').state
    ∧ (replay ctx engine opts store linker t1 t2).events
        = (replay ctx engine opts store linker t1' t2').events
    ∧ (replay ctx engine opts store linker t1 t2).evidence
        = (replay ctx engine opts store linker t1' t2').evidence
    ∧ (replay ctx engine opts store linker t1 t2).state
        = replayFold engine.handlers (deepClone engine.initialState)
            (replay ctx engine opts store linker t1 t2).events
    ∧ deepClone engine.initialState = engine.initialState :=
  ⟨rfl, rfl, rfl, rfl, rfl⟩

end UltraWealth

namespace UltraWealth

/-! ## C1: hash-chain integrity of the event store -/

theorem getTenantKey_inj {pk pk' : String} (h : getTenantKey pk = getTenantKey pk') :
    pk = pk' :=
  string_append_left_cancel h

theorem chainLast_concat (e : DomainEvent) :
    ∀ (l : List DomainEvent) (prev : Option EventHash),
      chainLast prev (l ++ [e]) = some e.hash := by
  intro l
  induction l with
  | nil => intro prev; rfl
  | cons x xs ih => intro prev; simpa [chainLast] using ih (some x.hash)

theorem chainOk_snoc (e : DomainEvent) :
    ∀ (l : List DomainEvent) (prev : Option EventHash),
      chainOk prev l = true →
      e.previousHash = chainLast prev l →
      e.hash = calculateHash (eventCore e) e.previousHash →
      chainOk prev (l ++ [e]) = true := by
  intro l
  induction l with
  | nil =>
      intro prev _ hprev hhash
      simp only [List.nil_append, chainOk, Bool.and_eq_true, beq_iff_eq]
      exact ⟨⟨by simpa [chainLast] using hprev, hhash⟩, trivial⟩
  | cons x xs ih =>
      intro prev hok hprev hhash
      simp only [chainOk, Bool.and_eq_true] at hok
      simp only [List.cons_append, chainOk, Bool.and_eq_true]
      exact ⟨hok.1, ih (some x.hash) hok.2 (by simpa [chainLast] using hprev) hhash⟩

theorem verifyErrorsFrom_eq_nil_iff :
    ∀ (l : List DomainEvent) (prev : Option EventHash),
      verifyErrorsFrom prev l = [] ↔ chainOk prev l = true := by
  intro l
  induction l with
  | nil => intro prev; simp [verifyErrorsFrom, chainOk]
  | cons e rest ih =>
      intro prev
      simp only [verifyErrorsFrom, verifyEventErrors, chainOk, List.append_eq_nil,
        Bool.and_eq_true, beq_iff_eq, ih]
      constructor
      · rintro ⟨⟨h1, h2⟩, h3⟩
        refine ⟨⟨?_, ?_⟩, h3⟩
        · by_contra hne
          simp [hne] at h1
        · by_contra hne
          simp [hne] at h2
      · rintro ⟨⟨h1, h2⟩, h3⟩
        exact ⟨⟨by simp [h1], by simp [h2]⟩, h3⟩

theorem append_events_self (ctx : TenantContext) (a : AppendArgs) (st : EventStoreState) :
    eventsOf (append ctx a st).2 ctx.tenant.partitionKey
      = eventsOf st ctx.tenant.partitionKey ++ [(append ctx a st).1] := by
  unfold eventsOf
  rw [show (append ctx a st).2.events
      = alInsert st.events (getTenantKey ctx.tenant.partitionKey)
          (eventsOf st ctx.tenant.partitionKey ++ [(append ctx a st).1]) from rfl]
  rw [alLookup_alInsert_self]
  rfl

theorem append_events_ne (ctx : TenantContext) (a : AppendArgs) (st : EventStoreState)
    (pk : String) (hpk : pk ≠ ctx.tenant.partitionKey) :
    eventsOf (append ctx a st).2 pk = eventsOf st pk := by
  unfold eventsOf
  rw [show (append ctx a st).2.events
      = alInsert st.events (getTenantKey ctx.tenant.partitionKey)
          (eventsOf st ctx.tenant.partitionKey ++ [(append ctx a st).1]) from rfl]
  rw [alLookup_alInsert_ne _ _ _ _ (fun hk => hpk (getTenantKey_inj hk).symm)]

theorem append_lastHashes_self (ctx : TenantContext) (a : AppendArgs)
    (st : EventStoreState) :
    alLookup (append ctx a st).2.lastHashes (getTenantKey ctx.tenant.partitionKey)
      = some (append ctx a st).1.hash :=
  alLookup_alInsert_self st.lastHashes _ _

theorem append_lastHashes_ne (ctx : TenantContext) (a : AppendArgs)
    (st : EventStoreState) (pk : String) (hpk : pk ≠ ctx.tenant.partitionKey) :
    alLookup (append ctx a st).2.lastHashes (getTenantKey pk)
      = alLookup st.lastHashes (getTenantKey pk) :=
  alLookup_alInsert_ne st.lastHashes _ _ _ (fun hk => hpk (getTenantKey_inj hk).symm)

theorem append_preserves_chainInv (ctx : TenantContext) (a : AppendArgs)
    (st : EventStoreState) (hinv : chainInv st) : chainInv (append ctx a st).2 := by
  intro pk
  by_cases hpk : pk = ctx.tenant.partitionKey
  · subst hpk
    constructor
    · rw [append_events_self]
      refine chainOk_snoc _ _ _ (hinv _).1 ?_ rfl
      rw [show (append ctx a st).1.previousHash
          = alLookup st.lastHashes (getTenantKey ctx.tenant.partitionKey) from rfl]
      exact (hinv _).2
    · rw [append_events_self, append_lastHashes_self, chainLast_concat]
  · rw [append_events_ne ctx a st pk hpk, append_lastHashes_ne ctx a st pk hpk]
    exact hinv pk

theorem runAppends_chainInv (steps : List AppendStep) :
    ∀ st, chainInv st → chainInv (runAppends st steps) := by
  induction steps with
  | nil => intro st h; exact h
  | cons s rest ih =>
      intro st h
      exact ih _ (append_preserves_chainInv s.ctx s.args st h)

theorem emptyEventStore_chainInv : chainInv emptyEventStore := by
  intro pk
  exact ⟨rfl, rfl⟩

theorem chainOk_first :
    ∀ (l : List DomainEvent) (prev : Option EventHash), chainOk prev l = true →
      ∀ e, l[0]? = some e → e.previousHash = prev := by
  intro l prev hok e hget
  cases l with
  | nil => simp at hget
  | cons x xs =>
      simp only [List.getElem?_cons_zero, Option.some.injEq] at hget
      subst hget
      simp only [chainOk, Bool.and_eq_true, beq_iff_eq] at hok
      exact hok.1.1

theorem chainOk_link :
    ∀ (l : List DomainEvent) (prev : Option EventHash), chainOk prev l = true →
      ∀ i e1 e2, l[i]? = some e1 → l[i + 1]? = some e2 →
        e2.previousHash = some e1.hash := by
  intro l
  induction l with
  | nil => intro prev _ i e1 e2 hget; simp at hget
  | cons x xs ih =>
      intro prev hok i e1 e2 hget1 hget2
      simp only [chainOk, Bool.and_eq_true] at hok
      cases i with
      | zero =>
          simp only [List.getElem?_cons_zero, Option.some.injEq] at hget1
          simp only [List.getElem?_cons_succ] at hget2
          rw [chainOk_first xs (some x.hash) hok.2 e2 hget2, hget1]
      | succ n =>
          simp only [List.getElem?_cons_succ] at hget1 hget2
          exact ih (some x.hash) hok.2 n e1 e2 hget1 hget2

theorem oneFieldDiff_cases {e e' : DomainEvent} (h : oneFieldDiff e e') :
    (eventCore e' ≠ eventCore e ∧ e'.hash = e.hash ∧ e'.previousHash = e.previousHash)
    ∨ (eventCore e' = eventCore e ∧ e'.hash ≠ e.hash ∧ e'.previousHash = e.previousHash)
    ∨ (eventCore e' = eventCore e ∧ e'.hash = e.hash ∧ e'.previousHash ≠ e.previousHash) := by
  unfold oneFieldDiff at h
  rcases h with ⟨v, hv, rfl⟩ | ⟨v, hv, rfl⟩ | ⟨v, hv, rfl⟩ | ⟨v, hv, rfl⟩ | ⟨v, hv, rfl⟩
    | ⟨v, hv, rfl⟩ | ⟨v, hv, rfl⟩ | ⟨v, hv, rfl⟩ | ⟨v, hv, rfl⟩ | ⟨v, hv, rfl⟩
    | ⟨v, hv, rfl⟩ | ⟨v, hv, rfl⟩ | ⟨v, hv, rfl⟩ | ⟨v, hv, rfl⟩ | ⟨v, hv, rfl⟩
  all_goals first
    | exact Or.inl ⟨by simp [eventCore]; exact hv, rfl, rfl⟩
    | exact Or.inr (Or.inl ⟨rfl, hv, rfl⟩)
    | exact Or.inr (Or.inr ⟨rfl, rfl, hv⟩)

end UltraWealth

namespace UltraWealth

theorem verify_tamper :
    ∀ (l : List DomainEvent) (prev : Option EventHash) (i : Nat) (e e' : DomainEvent),
      chainOk prev l = true → l[i]? = some e → oneFieldDiff e e' →
      ("Event " ++ e'.id ++ ": previous hash mismatch")
          ∈ verifyErrorsFrom prev (l.set i e')
      ∨ ("Event " ++ e'.id ++ ": hash mismatch")
          ∈ verifyErrorsFrom prev (l.set i e') := by
  intro l
  induction l with
  | nil =>
      intro prev i e e' _ hget _
      simp at hget
  | cons x xs ih =>
      intro prev i e e' hok hget hdiff
      simp only [chainOk, Bool.and_eq_true, beq_iff_eq] at hok
      obtain ⟨⟨hx1, hx2⟩, hxs⟩ := hok
      cases i with
      | zero =>
          simp only [List.getElem?_cons_zero, Option.some.injEq] at hget
          subst hget
          rcases oneFieldDiff_cases hdiff with ⟨hc, hh, hp⟩ | ⟨hc, hh, hp⟩ | ⟨hc, hh, hp⟩
          · right
            have hcond : e'.hash ≠ calculateHash (eventCore e') e'.previousHash := by
              rw [hh, hx2, hp]
              intro hEq
              exact hc (calculateHash_inj hEq).1.symm
            simp [verifyErrorsFrom, verifyEventErrors, hcond]
          · right
            have hcond : e'.hash ≠ calculateHash (eventCore e') e'.previousHash := by
              rw [hc, hp, ← hx2]
              exact hh
            simp [verifyErrorsFrom, verifyEventErrors, hcond]
          · left
            have hcond : e'.previousHash ≠ prev := by
              rw [← hx1]
              exact hp
            simp [verifyErrorsFrom, verifyEventErrors, hcond]
      | succ n =>
          simp only [List.getElem?_cons_succ] at hget
          have hmem := ih (some x.hash) n e e' hxs hget hdiff
          simp only [List.set_cons_succ, verifyErrorsFrom]
          rcases hmem with h | h
          · exact Or.inl (List.mem_append_right _ h)
          · exact Or.inr (List.mem_append_right _ h)

theorem verifyChainIntegrity_errors (ctx : TenantContext) (st : EventStoreState) :
    (verifyChainIntegrity ctx st).errors
      = verifyErrorsFrom none (eventsOf st ctx.tenant.partitionKey) := rfl

theorem verifyChainIntegrity_valid (ctx : TenantContext) (st : EventStoreState) :
    (verifyChainIntegrity ctx st).valid
      = ((verifyChainIntegrity ctx st).errors.length == 0) := rfl

theorem tamperAt_eventsOf (st : EventStoreState) (pk : String) (i : Nat)
    (e' : DomainEvent) :
    eventsOf (tamperAt st pk i e') pk = (eventsOf st pk).set i e' := by
  unfold eventsOf tamperAt
  simp only [alLookup_alInsert_self]
  rfl

theorem length_beq_zero_false {α : Type} : ∀ (l : List α), l ≠ [] → (l.length == 0) = false := by
  intro l hl
  cases l with
  | nil => exact absurd rfl hl
  | cons a as => rfl

/-- C1: for every sequence of `append` calls (each an atomic transition run
under an active tenant context, in any interleaving), `verifyChainIntegrity`
on any tenant's partition returns valid = true with an empty error list;
each stored event's `previousHash` is the hash of the immediately preceding
event of that partition (`none` for the first); and if any one stored field
of any stored event (including `previousHash` and `hash`) is replaced by a
different value after append, `verifyChainIntegrity` returns valid = false
and its error list names the tampered event's id. -/
theorem eventStore_chain_integrity (steps : List AppendStep) (ctx : TenantContext) :
    (verifyChainIntegrity ctx (runAppends emptyEventStore steps)).valid = true
    ∧ (verifyChainIntegrity ctx (runAppends emptyEventStore steps)).errors = []
    ∧ (∀ e, (eventsOf (runAppends emptyEventStore steps) ctx.tenant.partitionKey)[0]?
          = some e → e.previousHash = none)
    ∧ (∀ i e1 e2,
        (eventsOf (runAppends emptyEventStore steps) ctx.tenant.partitionKey)[i]?
            = some e1 →
        (eventsOf (runAppends emptyEventStore steps) ctx.tenant.partitionKey)[i + 1]?
            = some e2 →
        e2.previousHash = some e1.hash)
    ∧ (∀ i e e',
        (eventsOf (runAppends emptyEventStore steps) ctx.tenant.partitionKey)[i]?
            = some e →
        oneFieldDiff e e' →
        (verifyChainIntegrity ctx (tamperAt (runAppends emptyEventStore steps)
            ctx.tenant.partitionKey i e')).valid = false
        ∧ (("Event " ++ e'.id ++ ": previous hash mismatch")
              ∈ (verifyChainIntegrity ctx (tamperAt (runAppends emptyEventStore steps)
                  ctx.tenant.partitionKey i e')).errors
           ∨ ("Event " ++ e'.id ++ ": hash mismatch")
              ∈ (verifyChainIntegrity ctx (tamperAt (runAppends emptyEventStore steps)
                  ctx.tenant.partitionKey i e')).errors)) := by
  have hinv := runAppends_chainInv steps emptyEventStore emptyEventStore_chainInv
  have hchain := (hinv ctx.tenant.partitionKey).1
  have herr : (verifyChainIntegrity ctx (runAppends emptyEventStore steps)).errors = [] :=
    (verifyErrorsFrom_eq_nil_iff _ _).mpr hchain
  refine ⟨?_, herr, ?_, ?_, ?_⟩
  · rw [verifyChainIntegrity_valid, herr]
    rfl
  · intro e hget
    exact chainOk_first _ _ hchain e hget
  · intro i e1 e2 h1 h2
    exact chainOk_link _ _ hchain i e1 e2 h1 h2
  · intro i e e' hget hdiff
    have hmem := verify_tamper _ none i e e' hchain hget hdiff
    have herrs : (verifyChainIntegrity ctx (tamperAt (runAppends emptyEventStore steps)
          ctx.tenant.partitionKey i e')).errors
        = verifyErrorsFrom none
            ((eventsOf (runAppends emptyEventStore steps) ctx.tenant.partitionKey).set i e') := by
      rw [verifyChainIntegrity_errors, tamperAt_eventsOf]
    constructor
    · rw [verifyChainIntegrity_valid, herrs]
      apply length_beq_zero_false
      rcases hmem with h | h
      · exact List.ne_nil_of_mem h
      · exact List.ne_nil_of_mem h
    · rw [herrs]
      exact hmem

def c1Tenant : TenantConfig :=
  { id := "tC", name := "Chain", profile := .fo, status := .active,
    encryptionKeyId := "ek_C", partitionKey := "p", createdAt := 0, updatedAt := 0 }

def c1Ctx : TenantContext :=
  { tenant := c1Tenant, correlationId := "corr-c1", createdAt := 0, userId := none,
    roles := [] }

def c1Steps : List AppendStep :=
  [{ ctx := c1Ctx,
     args := { type := "entity.created", aggregateId := "ent_1", aggregateType := "Entity",
               payload := "v1", newId := "e1", now := 1 } },
   { ctx := c1Ctx,
     args := { type := "entity.updated", aggregateId := "ent_1", aggregateType := "Entity",
               payload := "v2", newId := "e2", now := 2 } }]

def c1Orig : DomainEvent :=
  ((eventsOf (runAppends emptyEventStore c1Steps) "p")[1]?).getD defaultEvent

def c1Tampered : DomainEvent := { c1Orig with payload := "TAMPERED" }

theorem eventStore_chain_integrity_witness :
    (verifyChainIntegrity c1Ctx (runAppends emptyEventStore c1Steps)).valid = true
    ∧ (eventsOf (runAppends emptyEventStore c1Steps) "p")[1]? = some c1Orig
    ∧ (verifyChainIntegrity c1Ctx
        (tamperAt (runAppends emptyEventStore c1Steps) "p" 1 c1Tampered)).valid = false := by
  have h := eventStore_chain_integrity c1Steps c1Ctx
  have hdiff : oneFieldDiff c1Orig c1Tampered := by
    unfold oneFieldDiff
    iterate 8 right
    left
    exact ⟨"TAMPERED", by decide, rfl⟩
  have ht := h.2.2.2.2 1 c1Orig c1Tampered (by decide) hdiff
  exact ⟨h.1, by decide, ht.1⟩

end UltraWealth

namespace UltraWealth

/-! ## C3: per-aggregate sequence numbers -/

theorem aggregateKeyOf_data (pk ty aid : String) :
    (aggregateKeyOf pk ty aid).data = pk.data ++ ':' :: (ty.data ++ ':' :: aid.data) := by
  unfold aggregateKeyOf
  simp [string_append_data]

theorem aggregateKeyOf_inj {pk ty aid pk' ty' aid' : String}
    (hpk : colonFree pk) (hty : colonFree ty) (hpk' : colonFree pk')
    (hty' : colonFree ty')
    (h : aggregateKeyOf pk ty aid = aggregateKeyOf pk' ty' aid') :
    pk = pk' ∧ ty = ty' ∧ aid = aid' := by
  have hd : pk.data ++ ':' :: (ty.data ++ ':' :: aid.data)
      = pk'.data ++ ':' :: (ty'.data ++ ':' :: aid'.data) := by
    rw [← aggregateKeyOf_data, ← aggregateKeyOf_data, h]
  obtain ⟨h1, h2⟩ := sep_split hpk hpk' hd
  obtain ⟨h3, h4⟩ := sep_split hty hty' h2
  exact ⟨String.ext h1, String.ext h3, String.ext h4⟩

theorem append_aggSeq_self (ctx : TenantContext) (a : AppendArgs) (st : EventStoreState) :
    alLookup (append ctx a st).2.aggregateSequences
        (aggregateKeyOf ctx.tenant.partitionKey a.aggregateType a.aggregateId)
      = some ((alLookup st.aggregateSequences
          (aggregateKeyOf ctx.tenant.partitionKey a.aggregateType a.aggregateId)).getD 0 + 1) :=
  alLookup_alInsert_self st.aggregateSequences _ _

theorem append_aggSeq_ne (ctx : TenantContext) (a : AppendArgs) (st : EventStoreState)
    (k : String)
    (hk : aggregateKeyOf ctx.tenant.partitionKey a.aggregateType a.aggregateId ≠ k) :
    alLookup (append ctx a st).2.aggregateSequences k
      = alLookup st.aggregateSequences k :=
  alLookup_alInsert_ne st.aggregateSequences _ _ _ hk

theorem append_preserves_seqInv (ctx : TenantContext) (a : AppendArgs)
    (st : EventStoreState) (hpk0 : colonFree ctx.tenant.partitionKey)
    (hty0 : colonFree a.aggregateType) (hinv : seqInv st) :
    seqInv (append ctx a st).2 := by
  intro pk ty aid hpk hty
  by_cases hsame : pk = ctx.tenant.partitionKey ∧ ty = a.aggregateType
      ∧ aid = a.aggregateId
  · obtain ⟨rfl, rfl, rfl⟩ := hsame
    have hmatch : ((append ctx a st).1.aggregateType == a.aggregateType
        && (append ctx a st).1.aggregateId == a.aggregateId) = true := by
      rw [show (append ctx a st).1.aggregateType = a.aggregateType from rfl,
        show (append ctx a st).1.aggregateId = a.aggregateId from rfl]
      simp
    have hAgg : aggEventsOf (append ctx a st).2 ctx.tenant.partitionKey
          a.aggregateType a.aggregateId
        = aggEventsOf st ctx.tenant.partitionKey a.aggregateType a.aggregateId
            ++ [(append ctx a st).1] := by
      unfold aggEventsOf
      rw [append_events_self, List.filter_append]
      simp [hmatch]
    obtain ⟨hlen, hmap⟩ := hinv ctx.tenant.partitionKey a.aggregateType a.aggregateId hpk hty
    have hseq : (append ctx a st).1.sequence
        = (alLookup st.aggregateSequences (aggregateKeyOf ctx.tenant.partitionKey
            a.aggregateType a.aggregateId)).getD 0 + 1 := rfl
    constructor
    · rw [append_aggSeq_self, hAgg]
      simp [hlen]
    · rw [hAgg, List.map_append, hmap]
      simp only [List.map_cons, List.map_nil]
      rw [hseq, hlen, List.length_append, List.length_singleton, List.range'_concat]
      congr 1
      simp only [List.cons.injEq, and_true]
      omega
  · have hkey : aggregateKeyOf ctx.tenant.partitionKey a.aggregateType a.aggregateId
        ≠ aggregateKeyOf pk ty aid := by
      intro heq
      obtain ⟨h1, h2, h3⟩ := aggregateKeyOf_inj hpk0 hty0 hpk hty heq
      exact hsame ⟨h1.symm, h2.symm, h3.symm⟩
    have hcnt : alLookup (append ctx a st).2.aggregateSequences (aggregateKeyOf pk ty aid)
        = alLookup st.aggregateSequences (aggregateKeyOf pk ty aid) :=
      append_aggSeq_ne ctx a st _ hkey
    by_cases hpkeq : pk = ctx.tenant.partitionKey
    · subst hpkeq
      have hnm : ¬(ty = a.aggregateType ∧ aid = a.aggregateId) := fun hx =>
        hsame ⟨rfl, hx.1, hx.2⟩
      have hexcl : ((append ctx a st).1.aggregateType == ty
          && (append ctx a st).1.aggregateId == aid) = false := by
        rw [show (append ctx a st).1.aggregateType = a.aggregateType from rfl,
          show (append ctx a st).1.aggregateId = a.aggregateId from rfl]
        by_cases h1 : a.aggregateType = ty
        · have h2 : a.aggregateId ≠ aid := fun h2 => hnm ⟨h1.symm, h2.symm⟩
          simp [h1, h2]
        · simp [h1]
      have hAgg : aggEventsOf (append ctx a st).2 ctx.tenant.partitionKey ty aid
          = aggEventsOf st ctx.tenant.partitionKey ty aid := by
        unfold aggEventsOf
        rw [append_events_self, List.filter_append]
        simp [hexcl]
      rw [hAgg, hcnt]
      exact hinv ctx.tenant.partitionKey ty aid hpk hty
    · have hAgg : aggEventsOf (append ctx a st).2 pk ty aid = aggEventsOf st pk ty aid := by
        unfold aggEventsOf
        rw [append_events_ne ctx a st pk hpkeq]
      rw [hAgg, hcnt]
      exact hinv pk ty aid hpk hty

theorem runAppends_seqInv :
    ∀ (steps : List AppendStep) (st : EventStoreState),
      (∀ s ∈ steps, colonFree s.ctx.tenant.partitionKey ∧ colonFree s.args.aggregateType) →
      seqInv st → seqInv (runAppends st steps) := by
  intro steps
  induction steps with
  | nil => intro st _ h; exact h
  | cons s rest ih =>
      intro st hfree h
      have hs := hfree s (List.mem_cons_self s rest)
      exact ih _ (fun x hx => hfree x (List.mem_cons_of_mem s hx))
        (append_preserves_seqInv s.ctx s.args st hs.1 hs.2 h)

theorem emptyEventStore_seqInv : seqInv emptyEventStore := by
  intro pk ty aid _ _
  exact ⟨rfl, rfl⟩

/-- C3 as amended: provided every `append` in the trace runs under a
partition key and an aggregate type containing no `':'` character (true of
the registry-generated `pk_<hex>` partition keys and of ordinary aggregate
type names, and needed because the counter key is the string
`${partitionKey}:${aggregateType}:${aggregateId}`), the sequence numbers
stored on each (tenant, aggregateType, aggregateId)'s events are exactly
1, 2, 3, … in order of append — no gaps, no repeats — for any interleaving
of appends (each `append` is one atomic transition), and the aggregate's
counter equals its event count. -/
theorem append_sequence_monotone (steps : List AppendStep)
    (hfree : ∀ s ∈ steps, colonFree s.ctx.tenant.partitionKey
      ∧ colonFree s.args.aggregateType)
    (pk ty aid : String) (hpk : colonFree pk) (hty : colonFree ty) :
    (aggEventsOf (runAppends emptyEventStore steps) pk ty aid).map (fun e => e.sequence)
        = List.range' 1 (aggEventsOf (runAppends emptyEventStore steps) pk ty aid).length
    ∧ (alLookup (runAppends emptyEventStore steps).aggregateSequences
          (aggregateKeyOf pk ty aid)).getD 0
        = (aggEventsOf (runAppends emptyEventStore steps) pk ty aid).length := by
  have h := runAppends_seqInv steps emptyEventStore hfree emptyEventStore_seqInv
    pk ty aid hpk hty
  exact ⟨h.2, h.1⟩

def c3Tenant : TenantConfig :=
  { id := "tS", name := "Seq", profile := .fo, status := .active,
    encryptionKeyId := "ek_S", partitionKey := "p3", createdAt := 0, updatedAt := 0 }

def c3Ctx : TenantContext :=
  { tenant := c3Tenant, correlationId := "corr-3", createdAt := 0, userId := none,
    roles := [] }

/-- Two appends whose encoded counter keys collide: aggregate ("A:x", "y")
and aggregate ("A", "x:y") both map to the key `p3:A:x:y`. -/
def c3Steps : List AppendStep :=
  [{ ctx := c3Ctx,
     args := { type := "t", aggregateId := "y", aggregateType := "A:x",
               payload := "", newId := "s1", now := 0 } },
   { ctx := c3Ctx,
     args := { type := "t", aggregateId := "x:y", aggregateType := "A",
               payload := "", newId := "s2", now := 0 } }]

/-- C3 counterexample: after the trace above, the single event of aggregate
(tenant `tS`, type "A", id "x:y") carries sequence number 2, not 1 — its
counter key collides with aggregate ("A:x", "y")'s — so the claim that every
aggregate's sequence numbers are exactly 1, 2, 3, … fails as stated. -/
theorem append_sequence_collision_cex :
    (aggEventsOf (runAppends emptyEventStore c3Steps) "p3" "A" "x:y").map
        (fun e => e.sequence) = [2]
    ∧ (aggEventsOf (runAppends emptyEventStore c3Steps) "p3" "A" "x:y").length = 1
    ∧ (aggEventsOf (runAppends emptyEventStore c3Steps) "p3" "A" "x:y").map
        (fun e => e.sequence)
      ≠ List.range' 1
          (aggEventsOf (runAppends emptyEventStore c3Steps) "p3" "A" "x:y").length := by
  decide

def c3GoodSteps : List AppendStep :=
  [{ ctx := c3Ctx,
     args := { type := "entity.created", aggregateId := "e1", aggregateType := "Entity",
               payload := "", newId := "g1", now := 0 } },
   { ctx := c3Ctx,
     args := { type := "other.created", aggregateId := "e9", aggregateType := "Other",
               payload := "", newId := "g2", now := 0 } },
   { ctx := c3Ctx,
     args := { type := "entity.updated", aggregateId := "e1", aggregateType := "Entity",
               payload := "", newId := "g3", now := 0 } }]

theorem append_sequence_monotone_witness :
    (aggEventsOf (runAppends emptyEventStore c3GoodSteps) "p3" "Entity" "e1").map
        (fun e => e.sequence)
      = List.range' 1
          (aggEventsOf (runAppends emptyEventStore c3GoodSteps) "p3" "Entity" "e1").length
    ∧ (aggEventsOf (runAppends emptyEventStore c3GoodSteps) "p3" "Entity" "e1").map
        (fun e => e.sequence) = [1, 2] :=
  ⟨(append_sequence_monotone c3GoodSteps (by decide) "p3" "Entity" "e1"
      (by decide) (by decide)).1,
   by decide⟩

end UltraWealth

namespace UltraWealth

/-! ## C8: getAggregateEvents -/

def c8Tenant : TenantConfig :=
  { id := "tG", name := "Agg", profile := .fo, status := .active,
    encryptionKeyId := "ek_G", partitionKey := "p8", createdAt := 0, updatedAt := 0 }

def c8Ctx : TenantContext :=
  { tenant := c8Tenant, correlationId := "corr-8", createdAt := 0, userId := none,
    roles := [] }

def c8TwoSteps : List AppendStep :=
  [{ ctx := c8Ctx,
     args := { type := "entity.created", aggregateId := "ent_1", aggregateType := "Entity",
               payload := "", newId := "b1", now := 1 } },
   { ctx := c8Ctx,
     args := { type := "entity.updated", aggregateId := "ent_1", aggregateType := "Entity",
               payload := "", newId := "b2", now := 2 } }]

def c8Step : AppendStep :=
  { ctx := c8Ctx,
    args := { type := "entity.updated", aggregateId := "ent_1", aggregateType := "Entity",
              payload := "", newId := "b", now := 3 } }

set_option maxRecDepth 10000 in
/-- C8: `getAggregateEvents` does return an aggregate's events in ascending
sequence order — after appending `entity.created` (seq 1) then
`entity.updated` (seq 2) it returns both, in that order — but it does NOT
return all of them once an aggregate has more than 100 events: it delegates
to `query` without a limit, `query` defaults the limit to 100, and so after
101 appends to one aggregate only the first 100 events come back even
though 101 are stored.  This contradicts the method's own documentation
("Get all events for an aggregate", "@returns All events for the aggregate
in order"), so the code, not the claim, is wrong. -/
theorem getAggregateEvents_truncates_at_100 :
    ((getAggregateEvents c8Ctx "Entity" "ent_1" (runAppends emptyEventStore c8TwoSteps)).map
        (fun e => (e.type, e.sequence)))
      = [("entity.created", 1), ("entity.updated", 2)]
    ∧ ((eventsOf (runAppends emptyEventStore (List.replicate 101 c8Step)) "p8").filter
        (fun e => e.aggregateType == "Entity" && e.aggregateId == "ent_1")).length = 101
    ∧ (getAggregateEvents c8Ctx "Entity" "ent_1"
        (runAppends emptyEventStore (List.replicate 101 c8Step))).length = 100 := by
  refine ⟨by decide, ?_, ?_⟩ <;> decide

end UltraWealth
